import Mathlib

/-!  Verification of the candidate-analysis pipeline (app.py): document text
extraction with a per-page OCR fallback, structured field extraction from the
model's free-text reply, and score-based filtering of the resulting records. -/

namespace HrAI

/-- Whitespace characters removed by Python's str.strip. -/
def isSpace (c : Char) : Bool :=
  c == ' ' || c == '\t' || c == '\n' || c == '\r' || c == '\x0b' || c == '\x0c'

/-- Remove leading and trailing whitespace from a character list. -/
def trimChars (l : List Char) : List Char :=
  ((l.dropWhile isSpace).reverse.dropWhile isSpace).reverse

/-- Python str.strip on strings. -/
def pyStrip (s : String) : String := ⟨trimChars s.data⟩

/-- ASCII lowercase folding; models the effect of re.IGNORECASE on the
ASCII labels used by the program. -/
def lowerL (l : List Char) : List Char := l.map Char.toLower

/-- Does the second list occur at the head of the first? -/
def headMatch : List Char → List Char → Bool
  | _, [] => true
  | [], _ :: _ => false
  | a :: as, b :: bs => a == b && headMatch as bs

/-- Index of the first occurrence of need inside hay: the leftmost match
found by re.search. -/
def findOcc : List Char → List Char → Option Nat
  | [], need => if headMatch [] need then some 0 else none
  | a :: t, need =>
    if headMatch (a :: t) need then some 0 else (findOcc t need).map (· + 1)

/-- First occurrence of need in hay at an index ≥ b; models the lazy capture
whose lookahead starts scanning right after the start label. -/
def findOccFrom (hay need : List Char) (b : Nat) : Option Nat :=
  (findOcc (hay.drop b) need).map (· + b)

/-- The substring of s at character positions [b, e). -/
def strSlice (s : String) (b e : Nat) : String := ⟨(s.data.drop b).take (e - b)⟩

/-- app.py extract_between: re.search of
escape(start_key)(.*?)(?=escape(end_key)|$) — or escape(start_key)(.*) when
no end key is given — under IGNORECASE and DOTALL, returning the stripped
capture, or "N/A" when the start key never occurs.  The regex's $-alternative
may stop the raw capture just before a final newline; the stripped value is
unchanged, so the capture is modelled as running to the end of the text. -/
def extract_between (text start_key : String) (end_key : Option String) : String :=
  match findOcc (lowerL text.data) (lowerL start_key.data) with
  | none => "N/A"
  | some i =>
    let b := i + start_key.data.length
    let j :=
      match end_key with
      | none => text.data.length
      | some e =>
        match findOccFrom (lowerL text.data) (lowerL e.data) b with
        | some k => k
        | none => text.data.length
    pyStrip (strSlice text b j)

/-- The first maximal run of decimal digits in a character list. -/
def firstDigitRun : List Char → Option (List Char)
  | [] => none
  | c :: rest =>
    if c.isDigit then some (c :: rest.takeWhile Char.isDigit)
    else firstDigitRun rest

/-- Decimal value of a digit list. -/
def digitsToNat (l : List Char) : Nat :=
  l.foldl (fun a c => a * 10 + (c.toNat - 48)) 0

/-- app.py extract_number: int of the first re.search r"\d+" match, np.nan
(modelled as none) when the text holds no digit. -/
def extract_number (text : String) : Option Nat :=
  (firstDigitRun text.data).map digitsToNat

/-- The Score field as computed in the processing loop:
extract_number(extract_between(ai_response, "Score:")) — note: no end key. -/
def scoreOf (resp : String) : Option Nat :=
  extract_number (extract_between resp "Score:" none)

example : extract_between "Top 3 Strengths:\nA\nB\nRed Flags\nC"
    "Top 3 Strengths:" (some "Red Flags") = "A\nB" := by decide

example : scoreOf "Score: 0" = some 0 := by decide

example : scoreOf "Score: 05" = some 5 := by decide

example : scoreOf "Score:\n87" = some 87 := by decide

example : extract_between "abc" "Q" none = "N/A" := by decide

/-- need occurs in hay at index i: the characters of hay starting at i
begin with need. -/
def OccursAt (hay need : List Char) (i : Nat) : Prop :=
  (hay.drop i).take need.length = need

instance (hay need : List Char) (i : Nat) : Decidable (OccursAt hay need i) := by
  unfold OccursAt
  infer_instance

theorem headMatch_iff (need hay : List Char) :
    headMatch hay need = true ↔ hay.take need.length = need := by
  induction need generalizing hay with
  | nil => simp [headMatch]
  | cons b bs ih =>
    cases hay with
    | nil => simp [headMatch]
    | cons a as =>
      simp only [headMatch, List.length_cons, List.take_succ_cons,
        Bool.and_eq_true, beq_iff_eq, List.cons.injEq, ih]

theorem occursAt_iff (hay need : List Char) (i : Nat) :
    OccursAt hay need i ↔ headMatch (hay.drop i) need = true := by
  rw [headMatch_iff]
  rfl

theorem findOcc_nil (need : List Char) :
    findOcc [] need = if headMatch [] need then some 0 else none := rfl

theorem findOcc_cons (a : Char) (t need : List Char) :
    findOcc (a :: t) need =
      if headMatch (a :: t) need then some 0
      else (findOcc t need).map (· + 1) := rfl

theorem occursAt_cons_succ (a : Char) (t need : List Char) (k : Nat) :
    OccursAt (a :: t) need (k + 1) ↔ OccursAt t need k := by
  unfold OccursAt
  rw [List.drop_succ_cons]

theorem findOcc_some (hay need : List Char) (i : Nat)
    (h : findOcc hay need = some i) :
    OccursAt hay need i ∧ ∀ k, k < i → ¬ OccursAt hay need k := by
  induction hay generalizing i with
  | nil =>
    rw [findOcc_nil] at h
    by_cases hm : headMatch [] need = true
    · rw [if_pos hm] at h
      injection h with h
      subst h
      exact ⟨(occursAt_iff _ _ _).mpr hm, fun k hk => absurd hk (Nat.not_lt_zero k)⟩
    · rw [if_neg hm] at h
      exact absurd h (by simp)
  | cons a t ih =>
    rw [findOcc_cons] at h
    by_cases hm : headMatch (a :: t) need = true
    · rw [if_pos hm] at h
      injection h with h
      subst h
      exact ⟨(occursAt_iff _ _ _).mpr hm, fun k hk => absurd hk (Nat.not_lt_zero k)⟩
    · rw [if_neg hm] at h
      rw [Option.map_eq_some'] at h
      obtain ⟨j, hj, hji⟩ := h
      obtain ⟨hocc, hmin⟩ := ih j hj
      subst hji
      refine ⟨(occursAt_cons_succ a t need j).mpr hocc, ?_⟩
      intro k hk
      cases k with
      | zero =>
        rw [occursAt_iff]
        simpa using hm
      | succ k' =>
        rw [occursAt_cons_succ]
        exact hmin k' (by omega)

theorem findOcc_none (hay need : List Char)
    (h : findOcc hay need = none) :
    ∀ i, ¬ OccursAt hay need i := by
  induction hay with
  | nil =>
    rw [findOcc_nil] at h
    by_cases hm : headMatch [] need = true
    · rw [if_pos hm] at h
      exact absurd h (by simp)
    · intro i
      rw [occursAt_iff]
      simpa using hm
  | cons a t ih =>
    rw [findOcc_cons] at h
    by_cases hm : headMatch (a :: t) need = true
    · rw [if_pos hm] at h
      exact absurd h (by simp)
    · rw [if_neg hm] at h
      rw [Option.map_eq_none'] at h
      intro i
      cases i with
      | zero =>
        rw [occursAt_iff]
        simpa using hm
      | succ i' =>
        rw [occursAt_cons_succ]
        exact ih h i'

/-- An occurrence anywhere gives an occurrence at an index ≤ length
(an out-of-range occurrence forces need = [], which occurs at 0). -/
theorem occursAt_le_length (hay need : List Char) (i : Nat)
    (h : OccursAt hay need i) : ∃ k, k ≤ hay.length ∧ OccursAt hay need k := by
  by_cases hle : i ≤ hay.length
  · exact ⟨i, hle, h⟩
  · have hdrop : hay.drop i = [] := by
      apply List.drop_eq_nil_of_le
      omega
    unfold OccursAt at h
    rw [hdrop] at h
    simp at h
    refine ⟨0, Nat.zero_le _, ?_⟩
    unfold OccursAt
    subst h
    simp

theorem findOcc_eq_some_of_first (hay need : List Char) (i : Nat)
    (hocc : OccursAt hay need i)
    (hmin : ∀ k, k < i → ¬ OccursAt hay need k) :
    findOcc hay need = some i := by
  cases hfind : findOcc hay need with
  | none => exact absurd hocc (findOcc_none hay need hfind i)
  | some j =>
    obtain ⟨hj, hjmin⟩ := findOcc_some hay need j hfind
    by_cases hij : i = j
    · rw [hij]
    · rcases Nat.lt_or_ge i j with hlt | hge
      · exact absurd hocc (hjmin i hlt)
      · have : j < i := by omega
        exact absurd hj (hmin j this)

theorem occursAt_drop (hay need : List Char) (b k : Nat) :
    OccursAt (hay.drop b) need k ↔ OccursAt hay need (b + k) := by
  unfold OccursAt
  rw [List.drop_drop]

theorem findOccFrom_some (hay need : List Char) (b j : Nat)
    (h : findOccFrom hay need b = some j) :
    b ≤ j ∧ OccursAt hay need j ∧
      ∀ k, k < j → b ≤ k → ¬ OccursAt hay need k := by
  unfold findOccFrom at h
  simp only [Option.map_eq_some'] at h
  obtain ⟨m, hm, rfl⟩ := h
  obtain ⟨hocc, hmin⟩ := findOcc_some _ _ _ hm
  rw [occursAt_drop] at hocc
  refine ⟨by omega, by rw [Nat.add_comm]; exact hocc, ?_⟩
  intro k hk hbk hocck
  have : OccursAt (hay.drop b) need (k - b) := by
    rw [occursAt_drop]
    have : b + (k - b) = k := by omega
    rw [this]
    exact hocck
  exact hmin (k - b) (by omega) this

theorem findOccFrom_none (hay need : List Char) (b : Nat)
    (h : findOccFrom hay need b = none) :
    ∀ k, b ≤ k → ¬ OccursAt hay need k := by
  unfold findOccFrom at h
  simp only [Option.map_eq_none'] at h
  intro k hbk hocc
  have : OccursAt (hay.drop b) need (k - b) := by
    rw [occursAt_drop]
    have : b + (k - b) = k := by omega
    rw [this]
    exact hocc
  exact findOcc_none _ _ h (k - b) this

theorem findOccFrom_eq_some_of_first (hay need : List Char) (b j : Nat)
    (hbj : b ≤ j) (hocc : OccursAt hay need j)
    (hmin : ∀ k, k < j → b ≤ k → ¬ OccursAt hay need k) :
    findOccFrom hay need b = some j := by
  unfold findOccFrom
  have h1 : OccursAt (hay.drop b) need (j - b) := by
    rw [occursAt_drop]
    have : b + (j - b) = j := by omega
    rw [this]
    exact hocc
  have h2 : ∀ k, k < j - b → ¬ OccursAt (hay.drop b) need k := by
    intro k hk hocck
    rw [occursAt_drop] at hocck
    exact hmin (b + k) (by omega) (by omega) hocck
  rw [findOcc_eq_some_of_first _ _ _ h1 h2]
  simp
  omega

theorem occursAt_add_le (hay need : List Char) (i : Nat)
    (h : OccursAt hay need i) (hne : need ≠ []) :
    i + need.length ≤ hay.length := by
  unfold OccursAt at h
  have hlen := congrArg List.length h
  rw [List.length_take, List.length_drop] at hlen
  have hz : need.length ≠ 0 := by
    simpa using hne
  omega

theorem occursAt_nil_need (hay : List Char) (i : Nat) :
    OccursAt hay [] i := by
  unfold OccursAt
  simp

theorem lowerL_length (l : List Char) : (lowerL l).length = l.length := by
  simp [lowerL]

theorem extract_between_eq_of_found (text skey : String) (ekey : Option String)
    (i : Nat)
    (hfind : findOcc (lowerL text.data) (lowerL skey.data) = some i) :
    extract_between text skey ekey =
      pyStrip (strSlice text (i + skey.data.length)
        (match ekey with
         | none => text.data.length
         | some e =>
           match findOccFrom (lowerL text.data) (lowerL e.data)
               (i + skey.data.length) with
           | some k => k
           | none => text.data.length)) := by
  unfold extract_between
  rw [hfind]

/-- When the start label occurs first at i, the span begin i + |label| stays
inside the text. -/
theorem span_begin_le (text skey : String) (i : Nat)
    (hocc : OccursAt (lowerL text.data) (lowerL skey.data) i)
    (hmin : ∀ k, k < i → ¬ OccursAt (lowerL text.data) (lowerL skey.data) k) :
    i + skey.data.length ≤ text.data.length := by
  by_cases hs : lowerL skey.data = []
  · have hzero : skey.data.length = 0 := by
      have := congrArg List.length hs
      simpa [lowerL] using this
    have h0 : OccursAt (lowerL text.data) (lowerL skey.data) 0 := by
      rw [hs]
      exact occursAt_nil_need _ _
    have hi : i = 0 := by
      by_contra hne
      exact hmin 0 (by omega) h0
    have := lowerL_length text.data
    omega
  · have h1 := occursAt_add_le _ _ _ hocc hs
    have h2 := lowerL_length text.data
    have h3 := lowerL_length skey.data
    omega

/-- No occurrence of the start key up to the text length means no match at
all, so extract_between answers "N/A". -/
theorem eb_not_found (text skey : String) (ekey : Option String)
    (hno : ∀ i, i ≤ text.data.length →
      ¬ OccursAt (lowerL text.data) (lowerL skey.data) i) :
    extract_between text skey ekey = "N/A" := by
  have hnone : findOcc (lowerL text.data) (lowerL skey.data) = none := by
    cases hfind : findOcc (lowerL text.data) (lowerL skey.data) with
    | none => rfl
    | some i =>
      obtain ⟨hocc, _⟩ := findOcc_some _ _ _ hfind
      obtain ⟨k, hk, hocck⟩ := occursAt_le_length _ _ _ hocc
      have hlen := lowerL_length text.data
      exact absurd hocck (hno k (by omega))
  unfold extract_between
  rw [hnone]

/-- With no end key the capture runs from the end of the first start-key
occurrence to the end of the text. -/
theorem eb_no_end (text skey : String) (i : Nat)
    (hocc : OccursAt (lowerL text.data) (lowerL skey.data) i)
    (hmin : ∀ k, k < i → ¬ OccursAt (lowerL text.data) (lowerL skey.data) k) :
    extract_between text skey none =
      pyStrip (strSlice text (i + skey.data.length) text.data.length) := by
  have hfind := findOcc_eq_some_of_first _ _ _ hocc hmin
  rw [extract_between_eq_of_found text skey none i hfind]

/-- With an end key that occurs at j, the first such position at or after the
span begin, the capture stops right before j. -/
theorem eb_end_found (text skey ekey : String) (i j : Nat)
    (hocc : OccursAt (lowerL text.data) (lowerL skey.data) i)
    (hmin : ∀ k, k < i → ¬ OccursAt (lowerL text.data) (lowerL skey.data) k)
    (hbj : i + skey.data.length ≤ j)
    (hocce : OccursAt (lowerL text.data) (lowerL ekey.data) j)
    (hmine : ∀ k, k < j → i + skey.data.length ≤ k →
      ¬ OccursAt (lowerL text.data) (lowerL ekey.data) k) :
    extract_between text skey (some ekey) =
      pyStrip (strSlice text (i + skey.data.length) j) := by
  have hfind := findOcc_eq_some_of_first _ _ _ hocc hmin
  have hfrom : findOccFrom (lowerL text.data) (lowerL ekey.data)
      (i + skey.data.length) = some j :=
    findOccFrom_eq_some_of_first _ _ _ _ hbj hocce
      (fun k hk hbk => hmine k hk hbk)
  rw [extract_between_eq_of_found text skey (some ekey) i hfind]
  simp only [hfrom]

/-- With an end key that never occurs at or after the span begin, the capture
runs to the end of the text. -/
theorem eb_end_missing (text skey ekey : String) (i : Nat)
    (hocc : OccursAt (lowerL text.data) (lowerL skey.data) i)
    (hmin : ∀ k, k < i → ¬ OccursAt (lowerL text.data) (lowerL skey.data) k)
    (hnoe : ∀ k, k ≤ text.data.length → i + skey.data.length ≤ k →
      ¬ OccursAt (lowerL text.data) (lowerL ekey.data) k) :
    extract_between text skey (some ekey) =
      pyStrip (strSlice text (i + skey.data.length) text.data.length) := by
  have hfind := findOcc_eq_some_of_first _ _ _ hocc hmin
  have hb := span_begin_le text skey i hocc hmin
  have hfrom : findOccFrom (lowerL text.data) (lowerL ekey.data)
      (i + skey.data.length) = none := by
    cases hf : findOccFrom (lowerL text.data) (lowerL ekey.data)
        (i + skey.data.length) with
    | none => rfl
    | some j =>
      obtain ⟨hbj, hoccj, _⟩ := findOccFrom_some _ _ _ _ hf
      by_cases he : lowerL ekey.data = []
      · have hoccb : OccursAt (lowerL text.data) (lowerL ekey.data)
            (i + skey.data.length) := by
          rw [he]
          exact occursAt_nil_need _ _
        exact absurd hoccb (hnoe _ hb (Nat.le_refl _))
      · have hj := occursAt_add_le _ _ _ hoccj he
        have hlen := lowerL_length text.data
        exact absurd hoccj (hnoe j (by omega) hbj)
  rw [extract_between_eq_of_found text skey (some ekey) i hfind]
  simp only [hfrom]

/-- C2: extract_between returns the substring from the end of the first
case-insensitive occurrence of the start label up to but not including the
first case-insensitive occurrence of the end label at or after the span
begin — or to the end of the text when the end label is absent or never
occurs there — trimmed of surrounding whitespace; when the start label does
not occur at all it returns the sentinel "N/A" (the function is total, so it
never raises); and on "Top 3 Strengths:\nA\nB\nRed Flags\nC" the span from
"Top 3 Strengths:" to "Red Flags" is "A\nB". -/
theorem extract_between_spec :
    (∀ text skey ekey,
      (∀ i, i ≤ text.data.length →
        ¬ OccursAt (lowerL text.data) (lowerL skey.data) i) →
      extract_between text skey ekey = "N/A")
  ∧ (∀ text skey i,
      OccursAt (lowerL text.data) (lowerL skey.data) i →
      (∀ k, k < i → ¬ OccursAt (lowerL text.data) (lowerL skey.data) k) →
      extract_between text skey none =
        pyStrip (strSlice text (i + skey.data.length) text.data.length))
  ∧ (∀ text skey ekey i j,
      OccursAt (lowerL text.data) (lowerL skey.data) i →
      (∀ k, k < i → ¬ OccursAt (lowerL text.data) (lowerL skey.data) k) →
      i + skey.data.length ≤ j →
      OccursAt (lowerL text.data) (lowerL ekey.data) j →
      (∀ k, k < j → i + skey.data.length ≤ k →
        ¬ OccursAt (lowerL text.data) (lowerL ekey.data) k) →
      extract_between text skey (some ekey) =
        pyStrip (strSlice text (i + skey.data.length) j))
  ∧ (∀ text skey ekey i,
      OccursAt (lowerL text.data) (lowerL skey.data) i →
      (∀ k, k < i → ¬ OccursAt (lowerL text.data) (lowerL skey.data) k) →
      (∀ k, k ≤ text.data.length → i + skey.data.length ≤ k →
        ¬ OccursAt (lowerL text.data) (lowerL ekey.data) k) →
      extract_between text skey (some ekey) =
        pyStrip (strSlice text (i + skey.data.length) text.data.length))
  ∧ extract_between "Top 3 Strengths:\nA\nB\nRed Flags\nC" "Top 3 Strengths:"
      (some "Red Flags") = "A\nB" :=
  ⟨eb_not_found, eb_no_end, eb_end_found, eb_end_missing, by decide⟩

/-- Witness for C2: the four conditional parts applied at concrete inputs. -/
theorem extract_between_spec_witness :
    extract_between "no labels here" "Q:" none = "N/A"
  ∧ extract_between "K: 7" "K:" none = "7"
  ∧ extract_between "A: x B: y" "A:" (some "B:") = "x"
  ∧ extract_between "A: x y" "A:" (some "Z:") = "x y" := by
  refine ⟨?_, ?_, ?_, ?_⟩
  · exact extract_between_spec.1 "no labels here" "Q:" none (by decide)
  · exact (extract_between_spec.2.1 "K: 7" "K:" 0 (by decide)
      (fun k hk => absurd hk (Nat.not_lt_zero k))).trans (by decide)
  · exact (extract_between_spec.2.2.1 "A: x B: y" "A:" "B:" 0 5 (by decide)
      (fun k hk => absurd hk (Nat.not_lt_zero k)) (by decide) (by decide)
      (by decide)).trans (by decide)
  · exact (extract_between_spec.2.2.2.1 "A: x y" "A:" "Z:" 0 (by decide)
      (fun k hk => absurd hk (Nat.not_lt_zero k)) (by decide)).trans (by decide)

theorem firstDigitRun_eq_none (l : List Char) :
    firstDigitRun l = none ↔ ∀ c ∈ l, c.isDigit = false := by
  induction l with
  | nil => simp [firstDigitRun]
  | cons c rest ih =>
    by_cases hc : c.isDigit
    · simp [firstDigitRun, hc]
    · simp only [Bool.not_eq_true] at hc
      simp [firstDigitRun, hc, ih]

theorem firstDigitRun_append (a : List Char) (c : Char) (r : List Char)
    (ha : ∀ x ∈ a, x.isDigit = false) (hc : c.isDigit = true) :
    firstDigitRun (a ++ c :: r) = some (c :: r.takeWhile Char.isDigit) := by
  induction a with
  | nil => simp [firstDigitRun, hc]
  | cons x xs ih =>
    have hx : x.isDigit = false := ha x (by simp)
    have hxs : ∀ y ∈ xs, y.isDigit = false := fun y hy => ha y (by simp [hy])
    simp [firstDigitRun, hx, ih hxs]

/-- C3 counterexample: "Score: 05" contains the literal text "Score: 0", yet
the extracted score is 5 — neither 0 nor the missing-value sentinel — because
the capture grabs the whole digit run "05". -/
theorem score_sentinel_cex :
    findOcc ("Score: 05").data ("Score: 0").data = some 0
  ∧ scoreOf "Score: 05" = some 5
  ∧ scoreOf "Score: 05" ≠ some 0 := by
  refine ⟨by decide, by decide, by decide⟩

/-- C3 (amended): on the exact report text "Score: 0" the extracted score is
the integer 0, not the sentinel; on a text with no case-insensitive
occurrence of the label "Score:" the score is the sentinel, not 0; numeric
coercion takes the first maximal run of decimal digits anywhere in the span
and yields the sentinel exactly when the span holds no digit.  (The claim's
universal form fails: a text such as "Score: 05" contains "Score: 0" but
parses to 5, see the counterexample.) -/
theorem score_sentinel_amended :
    scoreOf "Score: 0" = some 0
  ∧ (∀ text,
      (∀ i, i ≤ text.data.length →
        ¬ OccursAt (lowerL text.data) (lowerL ("Score:").data) i) →
      scoreOf text = none)
  ∧ (∀ t : String, extract_number t = none ↔ ∀ c ∈ t.data, c.isDigit = false)
  ∧ (∀ (a r : List Char) (c : Char),
      (∀ x ∈ a, x.isDigit = false) → c.isDigit = true →
      extract_number ⟨a ++ c :: r⟩ =
        some (digitsToNat (c :: r.takeWhile Char.isDigit))) := by
  refine ⟨by decide, ?_, ?_, ?_⟩
  · intro text hno
    unfold scoreOf
    rw [eb_not_found text "Score:" none hno]
    decide
  · intro t
    unfold extract_number
    rw [Option.map_eq_none']
    exact firstDigitRun_eq_none t.data
  · intro a r c ha hc
    unfold extract_number
    rw [firstDigitRun_append a c r ha hc]
    rfl

/-- Witness for C3 (amended): the conditional parts at concrete inputs. -/
theorem score_sentinel_amended_witness :
    scoreOf "Final Verdict: Strong Fit" = none
  ∧ (extract_number "no digits" = none ↔
      ∀ c ∈ ("no digits").data, c.isDigit = false)
  ∧ extract_number ⟨("ab ").data ++ '3' :: ("4x9").data⟩ = some 34 := by
  refine ⟨?_, ?_, ?_⟩
  · exact score_sentinel_amended.2.1 "Final Verdict: Strong Fit" (by decide)
  · exact score_sentinel_amended.2.2.1 "no digits"
  · exact (score_sentinel_amended.2.2.2 ("ab ").data ("4x9").data '3'
      (by decide) (by decide)).trans (by decide)

/-- C6 counterexample: for the report "Score:\n87" the captured Score value is
"87", which lies entirely on the line after the label — under the line-bounded
strategy the capture would be empty and the score the sentinel, but the code
yields 87. -/
theorem score_line_cex :
    extract_between "Score:\n87" "Score:" none = "87"
  ∧ scoreOf "Score:\n87" = some 87
  ∧ extract_between "Score:\n87" "Score:" (some "\n") = ""
  ∧ extract_number (extract_between "Score:\n87" "Score:" (some "\n")) =
      none := by
  refine ⟨by decide, by decide, by decide, by decide⟩

/-- C6 (amended): the Score field is extracted by the delimiter-span strategy
with NO end label: after the first case-insensitive occurrence of "Score:"
the capture runs to the end of the whole text, not merely to the end of that
line, so text on subsequent lines can become part of the captured value.
(Fields that pass "\x5Cn" as the end label, such as Final Verdict, are
line-bounded; Score is not.) -/
theorem score_span_amended (text : String) (i : Nat)
    (hocc : OccursAt (lowerL text.data) (lowerL ("Score:").data) i)
    (hmin : ∀ k, k < i →
      ¬ OccursAt (lowerL text.data) (lowerL ("Score:").data) k) :
    scoreOf text =
      extract_number
        (pyStrip (strSlice text (i + ("Score:").data.length)
          text.data.length)) := by
  unfold scoreOf
  rw [eb_no_end text "Score:" i hocc hmin]

/-- Witness for C6 (amended): applied to "Score:\n87". -/
theorem score_span_amended_witness : scoreOf "Score:\n87" = some 87 :=
  (score_span_amended "Score:\n87" 0 (by decide)
    (fun k hk => absurd hk (Nat.not_lt_zero k))).trans (by decide)

/-- One PDF page: its native text layer, and the outcome of rendering the
page at 300 DPI and running OCR on the bitmap (error = the exception the OCR
pipeline would raise). -/
structure Page where
  native : String
  ocr : Except String String

/-- An uploaded file: its name and the outcome of opening it as a PDF
(error = the exception fitz.open would raise). -/
structure UploadedFile where
  name : String
  parse : Except String (List Page)

/-- The per-page body of the loop in extract_pdf_text: take the native text;
when it strips to empty, run OCR.  The Bool records whether the OCR fallback
was invoked. -/
def pageResult (p : Page) : Except String String × Bool :=
  if pyStrip p.native = "" then (p.ocr, true) else (Except.ok p.native, false)

/-- The page loop of extract_pdf_text: text += txt + "\n" per page; the first
exception escapes the loop. -/
def pagesLoop : List Page → String → Except String String
  | [], acc => Except.ok acc
  | p :: rest, acc =>
    match (pageResult p).1 with
    | Except.error e => Except.error e
    | Except.ok t => pagesLoop rest (acc ++ t ++ "\n")

/-- app.py extract_pdf_text: any exception while opening the document or
processing a page is caught by the function-level handler and converted to a
diagnostic string naming the file. -/
def extract_pdf_text (f : UploadedFile) : String :=
  match f.parse with
  | Except.error e => "Error reading " ++ f.name ++ ": " ++ e
  | Except.ok pages =>
    match pagesLoop pages "" with
    | Except.error e => "Error reading " ++ f.name ++ ": " ++ e
    | Except.ok text => text

/-- file.name.lower().endswith(".pdf"). -/
def endsWithPdf (name : String) : Bool :=
  headMatch (lowerL name.data).reverse (lowerL (".pdf").data).reverse

/-- The upload branch of the batch loop: only files whose lowercased name
ends in ".pdf" contribute a (name, text) candidate. -/
def candidatesFromUploads : List UploadedFile → List (String × String)
  | [] => []
  | f :: rest =>
    if endsWithPdf f.name then
      (f.name, extract_pdf_text f) :: candidatesFromUploads rest
    else candidatesFromUploads rest

/-- Python str.split("---"): at the leftmost "---", close the current chunk
and continue after the separator. -/
def splitDashes : List Char → List (List Char)
  | [] => [[]]
  | '-' :: '-' :: '-' :: rest => [] :: splitDashes rest
  | c :: rest =>
    match splitDashes rest with
    | [] => [[c]]
    | h :: t => (c :: h) :: t

/-- The paste branch of the batch loop: `for i, chunk in
enumerate(pasted_candidates.split("---"))`, every chunk appended, stripped,
named by its 1-based position among all chunks. -/
def pastedLoop : Nat → List (List Char) → List (String × String)
  | _, [] => []
  | i, c :: rest =>
    ("Pasted_Candidate_" ++ toString (i + 1) ++ ".txt", pyStrip ⟨c⟩) ::
      pastedLoop (i + 1) rest

/-- The `if pasted_candidates:` guard plus the split loop. -/
def candidatesFromPasted (pasted : String) : List (String × String) :=
  if pasted = "" then [] else pastedLoop 0 (splitDashes pasted.data)

/-- The full candidate collection for a batch. -/
def candidates (files : List UploadedFile) (pasted : String) :
    List (String × String) :=
  candidatesFromUploads files ++ candidatesFromPasted pasted

example : splitDashes ("a---b").data = [('a' :: []), ('b' :: [])] := by decide

example : (candidatesFromPasted "Alice info\n---\n\n---\nBob info").length
    = 3 := by decide

/-- One structured output record: the dict appended per candidate in the
results loop. -/
structure CandidateRecord where
  candidate : String
  score : Option Nat
  verdict : String
  skillMatch : Option Nat
  expYears : String
  strengths : String
  redFlags : String
  justification : String
  whyNot : String
  aiRec : String
  resumeSummary : String
  fullAnalysis : String
deriving DecidableEq

/-- The field-extraction block of the results loop. -/
def mkRecord (name resp : String) : CandidateRecord where
  candidate := name
  score := scoreOf resp
  verdict := extract_between resp "Final Verdict:" (some "\n")
  skillMatch :=
    extract_number (extract_between resp "Skill Match Percentage:" none)
  expYears := extract_between resp "Experience Years:" (some "\n")
  strengths := extract_between resp "Top 3 Strengths:" (some "Red Flags")
  redFlags := extract_between resp "Red Flags" (some "Justify")
  justification :=
    extract_between resp "Justify role fit:" (some "If not recommended")
  whyNot :=
    extract_between resp "If not recommended, explain why:"
      (some "Final Verdict")
  aiRec := extract_between resp "Provide a one-line recommendation:" none
  resumeSummary :=
    extract_between resp
      "Summarize key insights and data extracted from resume" none
  fullAnalysis := resp

/-- The results loop: one record per collected candidate.  The api oracle
stands for generate_prompt composed with call_openrouter_api, both total —
an API failure comes back as an ordinary string reply. -/
def results (api : String → String) (files : List UploadedFile)
    (pasted : String) : List CandidateRecord :=
  (candidates files pasted).map (fun nc => mkRecord nc.1 (api nc.2))

/-- df["Score"] >= custom_threshold: the pandas comparison, False on NaN. -/
def scoreGE (s : Option Nat) (t : Nat) : Bool :=
  match s with
  | some v => decide (t ≤ v)
  | none => false

/-- df["Score"] == m: the pandas comparison, False whenever either side is
NaN. -/
def optEq (s m : Option Nat) : Bool :=
  match s, m with
  | some v, some w => v == w
  | _, _ => false

/-- Binary step of the pandas skipna max: NaN values are skipped. -/
def optMax (a b : Option Nat) : Option Nat :=
  match a, b with
  | none, c => c
  | some v, none => some v
  | some v, some w => some (max v w)

/-- df["Score"].max(): maximum over the non-NaN scores, NaN when none
exist. -/
def scoresMax (rows : List CandidateRecord) : Option Nat :=
  rows.foldl (fun a r => optMax a r.score) none

/-- filtered_df = df[df["Score"] >= custom_threshold]. -/
def filtered_df (rows : List CandidateRecord) (t : Nat) :
    List CandidateRecord :=
  rows.filter (fun r => scoreGE r.score t)

/-- best_df = df[df["Score"] == df["Score"].max()]. -/
def best_df (rows : List CandidateRecord) : List CandidateRecord :=
  rows.filter (fun r => optEq r.score (scoresMax rows))

/-- A concrete record with the given name and score, sentinel text fields. -/
def mkRow (n : String) (s : Option Nat) : CandidateRecord :=
  ⟨n, s, "N/A", none, "N/A", "N/A", "N/A", "N/A", "N/A", "N/A", "N/A", ""⟩

theorem optMax_some_right (a : Option Nat) (v : Nat) :
    ∃ w, optMax a (some v) = some w ∧ v ≤ w := by
  cases a with
  | none => exact ⟨v, rfl, Nat.le_refl v⟩
  | some u => exact ⟨max u v, rfl, by omega⟩

/-- Folding optMax from a present initial value yields a present maximum at
least that value. -/
theorem foldMax_init_le (rows : List CandidateRecord) :
    ∀ (v : Nat),
      ∃ M, rows.foldl (fun x r => optMax x r.score) (some v) = some M ∧
        v ≤ M := by
  induction rows with
  | nil => intro v; exact ⟨v, rfl, Nat.le_refl v⟩
  | cons r t ih =>
    intro v
    cases hs : r.score with
    | none =>
      simp only [List.foldl_cons]
      rw [hs]
      exact ih v
    | some u =>
      simp only [List.foldl_cons]
      rw [hs]
      obtain ⟨M, hM, hle⟩ := ih (max v u)
      exact ⟨M, hM, by omega⟩

/-- Every present score in the batch is below the folded maximum. -/
theorem foldMax_mem_le (rows : List CandidateRecord) (q : CandidateRecord)
    (v : Nat) (hv : q.score = some v) :
    ∀ a, q ∈ rows →
      ∃ M, rows.foldl (fun x r => optMax x r.score) a = some M ∧ v ≤ M := by
  induction rows with
  | nil => intro a hq; cases hq
  | cons r t ih =>
    intro a hq
    rcases List.mem_cons.mp hq with hqr | hqt
    · subst hqr
      simp only [List.foldl_cons]
      rw [hv]
      obtain ⟨w, hw, hvw⟩ := optMax_some_right a v
      rw [hw]
      obtain ⟨M, hM, hle⟩ := foldMax_init_le t w
      exact ⟨M, hM, by omega⟩
    · simp only [List.foldl_cons]
      exact ih _ hqt

/-- A present folded maximum is the initial value or a score attained by a
row of the batch. -/
theorem foldMax_attained (rows : List CandidateRecord) :
    ∀ (a : Option Nat) (M : Nat),
      rows.foldl (fun x r => optMax x r.score) a = some M →
      a = some M ∨ ∃ q ∈ rows, q.score = some M := by
  induction rows with
  | nil =>
    intro a M h
    exact Or.inl h
  | cons r t ih =>
    intro a M h
    simp only [List.foldl_cons] at h
    rcases ih _ M h with hinit | ⟨q, hq, hqs⟩
    · cases ha : a with
      | none =>
        cases hs : r.score with
        | none =>
          rw [ha, hs] at hinit
          exact absurd hinit (by simp [optMax])
        | some u =>
          rw [ha, hs] at hinit
          injection hinit with h2
          right
          exact ⟨r, by simp, by rw [hs, h2]⟩
      | some v =>
        cases hs : r.score with
        | none =>
          rw [ha, hs] at hinit
          left
          exact hinit
        | some u =>
          rw [ha, hs] at hinit
          injection hinit with h2
          rcases Nat.le_total v u with hvu | huv
          · right
            refine ⟨r, by simp, ?_⟩
            rw [hs]
            have : u = M := by omega
            rw [this]
          · left
            have : v = M := by omega
            rw [this]
    · right
      exact ⟨q, by simp [hq], hqs⟩

theorem optEq_true_iff (s m : Option Nat) :
    optEq s m = true ↔ ∃ v, s = some v ∧ m = some v := by
  cases s with
  | none => simp [optEq]
  | some v =>
    cases m with
    | none => simp [optEq]
    | some w =>
      simp only [optEq, beq_iff_eq, Option.some.injEq]
      constructor
      · intro h
        exact ⟨v, rfl, h.symm⟩
      · rintro ⟨u, h1, h2⟩
        omega

/-- C9: a record is in best_df exactly when it is in the batch and its Score
is present and is an upper bound of every present Score in the batch (so the
best set is the maximum-score subset, ties all kept); and on three rows
scoring [90, 90, 70] the best set is exactly the two rows scoring 90. -/
theorem best_df_spec :
    (∀ rows r, r ∈ best_df rows ↔
      r ∈ rows ∧ ∃ m, r.score = some m ∧
        ∀ q ∈ rows, ∀ v, q.score = some v → v ≤ m)
  ∧ best_df [mkRow "a" (some 90), mkRow "b" (some 90), mkRow "c" (some 70)]
      = [mkRow "a" (some 90), mkRow "b" (some 90)] := by
  constructor
  · intro rows r
    unfold best_df
    rw [List.mem_filter]
    constructor
    · rintro ⟨hmem, hEq⟩
      obtain ⟨m, hr, hmax⟩ := (optEq_true_iff _ _).mp hEq
      refine ⟨hmem, m, hr, ?_⟩
      intro q hq v hv
      obtain ⟨M, hM, hle⟩ := foldMax_mem_le rows q v hv none hq
      have : M = m := by
        rw [scoresMax] at hmax
        rw [hmax] at hM
        injection hM with h2
        omega
      omega
    · rintro ⟨hmem, m, hr, hub⟩
      refine ⟨hmem, ?_⟩
      obtain ⟨M, hM, hle⟩ := foldMax_mem_le rows r m hr none hmem
      rcases foldMax_attained rows none M hM with hinit | ⟨q, hq, hqs⟩
      · exact absurd hinit (by simp)
      · have hMm : M ≤ m := hub q hq M hqs
        have : M = m := by omega
        rw [optEq_true_iff]
        exact ⟨m, hr, by rw [scoresMax, hM, this]⟩
  · decide

/-- C10: a record whose Score is the missing-value sentinel is excluded from
filtered_df for every threshold, 0 included, and from best_df: both pandas
comparisons are False on NaN. -/
theorem nan_excluded (rows : List CandidateRecord) (t : Nat)
    (r : CandidateRecord) (h : r.score = none) :
    r ∉ filtered_df rows t ∧ r ∉ best_df rows := by
  constructor
  · intro hmem
    unfold filtered_df at hmem
    rw [List.mem_filter] at hmem
    obtain ⟨_, hP⟩ := hmem
    rw [h] at hP
    simp [scoreGE] at hP
  · intro hmem
    unfold best_df at hmem
    rw [List.mem_filter] at hmem
    obtain ⟨_, hP⟩ := hmem
    rw [h] at hP
    simp [optEq] at hP

/-- Witness for C10: the sentinel row of a concrete batch at threshold 0. -/
theorem nan_excluded_witness :
    mkRow "x" none ∉ filtered_df [mkRow "x" none, mkRow "y" (some 5)] 0
  ∧ mkRow "x" none ∉ best_df [mkRow "x" none, mkRow "y" (some 5)] :=
  nan_excluded [mkRow "x" none, mkRow "y" (some 5)] 0 (mkRow "x" none) rfl

theorem strAppend_empty (s : String) : s ++ "" = s := by
  cases s with
  | mk l =>
    show String.mk (l ++ []) = String.mk l
    rw [List.append_nil]

theorem strEmpty_append (s : String) : "" ++ s = s := by
  cases s with
  | mk l =>
    show String.mk ([] ++ l) = String.mk l
    rw [List.nil_append]

theorem strAppend_assoc (x y z : String) : x ++ y ++ z = x ++ (y ++ z) := by
  cases x with
  | mk a =>
    cases y with
    | mk b =>
      cases z with
      | mk c =>
        show String.mk (a ++ b ++ c) = String.mk (a ++ (b ++ c))
        rw [List.append_assoc]

theorem extract_pdf_text_ok (name : String) (pages : List Page) :
    extract_pdf_text ⟨name, Except.ok pages⟩ =
      match pagesLoop pages "" with
      | Except.error e => "Error reading " ++ name ++ ": " ++ e
      | Except.ok text => text := rfl

/-- A page whose OCR is needed and raises makes the whole page loop raise,
whatever came before or after. -/
theorem pagesLoop_error (p : Page) (e : String)
    (hp : pyStrip p.native = "") (he : p.ocr = Except.error e) :
    ∀ (pre : List Page),
      (∀ q ∈ pre, ∃ t, (pageResult q).1 = Except.ok t) →
      ∀ (post : List Page) (acc : String),
        pagesLoop (pre ++ p :: post) acc = Except.error e := by
  intro pre
  induction pre with
  | nil =>
    intro _ post acc
    have hPR : (pageResult p).1 = Except.error e := by
      simp [pageResult, hp, he]
    show pagesLoop (p :: post) acc = Except.error e
    unfold pagesLoop
    rw [hPR]
  | cons q rest ih =>
    intro hpre post acc
    obtain ⟨t, ht⟩ := hpre q (by simp)
    show pagesLoop (q :: (rest ++ p :: post)) acc = Except.error e
    unfold pagesLoop
    rw [ht]
    exact ih (fun q' hq' => hpre q' (by simp [hq'])) post _

/-- C5 counterexample: OCR fails on the whitespace-only page 2; the whole
document's extraction is abandoned — the result is the diagnostic string,
page 1's text is discarded and page 3 is never reached — instead of page 2
contributing empty text to the concatenation "A\n\nC\n". -/
theorem ocr_failure_cex :
    extract_pdf_text ⟨"f.pdf", Except.ok
        [⟨"A", Except.ok "x"⟩, ⟨" ", Except.error "ocr down"⟩,
         ⟨"C", Except.ok "y"⟩]⟩ = "Error reading f.pdf: ocr down"
  ∧ extract_pdf_text ⟨"f.pdf", Except.ok
        [⟨"A", Except.ok "x"⟩, ⟨" ", Except.error "ocr down"⟩,
         ⟨"C", Except.ok "y"⟩]⟩ ≠ "A\n\nC\n" := by
  refine ⟨by decide, by decide⟩

/-- C5 (amended): an OCR failure on one page escapes the page loop to the
FUNCTION-level handler: extract_pdf_text answers the diagnostic string for
the whole document, discarding every other page's text, rather than treating
the failed page as empty and continuing. -/
theorem ocr_failure_amended (name : String) (pre : List Page) (p : Page)
    (post : List Page) (e : String)
    (hpre : ∀ q ∈ pre, ∃ t, (pageResult q).1 = Except.ok t)
    (hp : pyStrip p.native = "") (he : p.ocr = Except.error e) :
    extract_pdf_text ⟨name, Except.ok (pre ++ p :: post)⟩ =
      "Error reading " ++ name ++ ": " ++ e := by
  rw [extract_pdf_text_ok, pagesLoop_error p e hp he pre hpre post ""]

/-- Witness for C5 (amended): a two-page document whose second page needs
OCR and the OCR engine raises "boom". -/
theorem ocr_failure_amended_witness :
    extract_pdf_text ⟨"g.pdf", Except.ok
        [⟨"A", Except.ok "x"⟩, ⟨"", Except.error "boom"⟩]⟩ =
      "Error reading g.pdf: boom" :=
  ocr_failure_amended "g.pdf" [⟨"A", Except.ok "x"⟩]
    ⟨"", Except.error "boom"⟩ [] "boom"
    (fun q hq => by
      simp at hq
      rw [hq]
      exact ⟨"A", rfl⟩)
    rfl rfl

/-- Page texts joined with a newline APPENDED after each one. -/
def joinPages : List String → String
  | [] => ""
  | t :: rest => t ++ "\n" ++ joinPages rest

/-- When every page yields a text, the loop concatenates them in order, each
followed by a newline. -/
theorem pagesLoop_ok (pages : List Page) :
    ∀ (ts : List String),
      pages.map (fun p => (pageResult p).1) = ts.map Except.ok →
      ∀ acc, pagesLoop pages acc = Except.ok (acc ++ joinPages ts) := by
  induction pages with
  | nil =>
    intro ts h acc
    cases ts with
    | nil =>
      show Except.ok acc = _
      rw [joinPages, strAppend_empty]
    | cons t ts' => simp at h
  | cons p rest ih =>
    intro ts h acc
    cases ts with
    | nil => simp at h
    | cons t ts' =>
      simp only [List.map_cons, List.cons.injEq] at h
      obtain ⟨h1, h2⟩ := h
      have hred : pagesLoop (p :: rest) acc =
          match (pageResult p).1 with
          | Except.error e => Except.error e
          | Except.ok t => pagesLoop rest (acc ++ t ++ "\n") := rfl
      rw [hred, h1]
      show pagesLoop rest (acc ++ t ++ "\n") = _
      rw [ih ts' h2 (acc ++ t ++ "\n")]
      rw [joinPages]
      rw [strAppend_assoc acc t "\n", strAppend_assoc acc (t ++ "\n")
        (joinPages ts'), strAppend_assoc t "\n" (joinPages ts')]

/-- C7 counterexample: a single page with native text "A" yields "A\n" — the
newline is appended after the page rather than used as a separator, and the
result is returned without trimming (it differs from its own strip). -/
theorem pdf_concat_cex :
    extract_pdf_text ⟨"f.pdf", Except.ok [⟨"A", Except.ok ""⟩]⟩ = "A\n"
  ∧ pyStrip (extract_pdf_text ⟨"f.pdf", Except.ok [⟨"A", Except.ok ""⟩]⟩) ≠
      extract_pdf_text ⟨"f.pdf", Except.ok [⟨"A", Except.ok ""⟩]⟩ := by
  refine ⟨by decide, by decide⟩

/-- C7 (amended): extract_pdf_text concatenates the per-page texts in page
order with "\n" APPENDED after every page — a terminator, so the result ends
with a newline — and returns it untrimmed. -/
theorem pdf_concat_amended (name : String) (pages : List Page)
    (ts : List String)
    (h : pages.map (fun p => (pageResult p).1) = ts.map Except.ok) :
    extract_pdf_text ⟨name, Except.ok pages⟩ = joinPages ts := by
  rw [extract_pdf_text_ok, pagesLoop_ok pages ts h ""]
  show "" ++ joinPages ts = joinPages ts
  exact strEmpty_append _

/-- Witness for C7 (amended): two pages, the second served by OCR. -/
theorem pdf_concat_amended_witness :
    extract_pdf_text ⟨"g.pdf", Except.ok
        [⟨"A", Except.ok "x"⟩, ⟨" ", Except.ok "B"⟩]⟩ = "A\nB\n" :=
  (pdf_concat_amended "g.pdf"
    [⟨"A", Except.ok "x"⟩, ⟨" ", Except.ok "B"⟩] ["A", "B"] rfl).trans
    (by decide)

/-- C8: the bitmap-recognition fallback is invoked exactly when the page's
native text layer is empty or whitespace-only; a page with any non-whitespace
native text keeps its native text, and a whitespace-only page takes the OCR
outcome instead. -/
theorem ocr_trigger (p : Page) :
    ((pageResult p).2 = true ↔ pyStrip p.native = "")
  ∧ ((pageResult p).2 = false → (pageResult p).1 = Except.ok p.native)
  ∧ ((pageResult p).2 = true → (pageResult p).1 = p.ocr) := by
  by_cases hp : pyStrip p.native = ""
  · refine ⟨⟨fun _ => hp, fun _ => by simp [pageResult, hp]⟩, ?_, ?_⟩
    · intro h
      rw [pageResult, if_pos hp] at h
      exact absurd h (by simp)
    · intro _
      rw [pageResult, if_pos hp]
  · refine ⟨⟨?_, fun h => absurd h hp⟩, ?_, ?_⟩
    · intro h
      rw [pageResult, if_neg hp] at h
      exact absurd h (by simp)
    · intro _
      rw [pageResult, if_neg hp]
    · intro h
      rw [pageResult, if_neg hp] at h
      exact absurd h (by simp)

/-- Witness for C8: a whitespace-only page takes the OCR text, a page with
real native text keeps it. -/
theorem ocr_trigger_witness :
    (pageResult ⟨"  ", Except.ok "T"⟩).1 = Except.ok "T"
  ∧ (pageResult ⟨"A", Except.ok "T"⟩).1 = Except.ok "A" :=
  ⟨(ocr_trigger ⟨"  ", Except.ok "T"⟩).2.2 rfl,
   (ocr_trigger ⟨"A", Except.ok "T"⟩).2.1 rfl⟩

/-- C1 (code-bug evaluation): the upload branch appends a candidate only for
names whose lowercase form ends in ".pdf", so a batch holding one uploaded
"resume.txt" yields ZERO records — the uploader accepts txt and docx, and the
documented guarantee is one record per input document.  A same-content
"resume.pdf" yields one record, and every collected candidate always yields
exactly one record. -/
theorem batch_cardinality_eval :
    (results (fun _ => "Score: 80")
        [⟨"resume.txt", Except.ok [⟨"hi", Except.ok ""⟩]⟩] "").length = 0
  ∧ (results (fun _ => "Score: 80")
        [⟨"resume.pdf", Except.ok [⟨"hi", Except.ok ""⟩]⟩] "").length = 1
  ∧ (∀ api files pasted,
      (results api files pasted).length = (candidates files pasted).length) := by
  refine ⟨rfl, rfl, ?_⟩
  intro api files pasted
  unfold results
  rw [List.length_map]

theorem pastedLoop_length (l : List (List Char)) :
    ∀ i, (pastedLoop i l).length = l.length := by
  induction l with
  | nil => intro i; rfl
  | cons c rest ih =>
    intro i
    show (pastedLoop i (c :: rest)).length = rest.length + 1
    rw [pastedLoop]
    show (pastedLoop (i + 1) rest).length + 1 = rest.length + 1
    rw [ih (i + 1)]

theorem pastedLoop_get? (l : List (List Char)) :
    ∀ i n, (pastedLoop i l).get? n =
      (l.get? n).map (fun c =>
        ("Pasted_Candidate_" ++ toString (i + n + 1) ++ ".txt",
          pyStrip ⟨c⟩)) := by
  induction l with
  | nil => intro i n; simp [pastedLoop]
  | cons c rest ih =>
    intro i n
    cases n with
    | zero => simp [pastedLoop]
    | succ m =>
      show (pastedLoop (i + 1) rest).get? m = _
      rw [ih (i + 1) m]
      have harith : i + 1 + m + 1 = i + (m + 1) + 1 := by omega
      rw [harith]
      rfl

/-- C4 counterexample: the spec's example paste yields THREE candidate
chunks, not two — the chunk that is empty after trimming is kept, and
"Bob info" is named by its 1-based position among ALL chunks (3), not among
the non-empty ones (2). -/
theorem paste_split_cex :
    candidatesFromPasted "Alice info\n---\n\n---\nBob info" =
      [("Pasted_Candidate_1.txt", "Alice info"),
       ("Pasted_Candidate_2.txt", ""),
       ("Pasted_Candidate_3.txt", "Bob info")]
  ∧ (candidatesFromPasted "Alice info\n---\n\n---\nBob info").length ≠ 2 := by
  refine ⟨by decide, by decide⟩

/-- C4 (amended): splitting the pasted input on the literal "---" yields one
candidate per delimiter-separated chunk with EVERY chunk kept — chunks that
are empty after trimming included — order preserved, and the n-th chunk
(0-based) named by its 1-based position among ALL chunks. -/
theorem paste_split_amended (p : String) (hp : p ≠ "") :
    (candidatesFromPasted p).length = (splitDashes p.data).length
  ∧ ∀ n, (candidatesFromPasted p).get? n =
      ((splitDashes p.data).get? n).map (fun c =>
        ("Pasted_Candidate_" ++ toString (n + 1) ++ ".txt", pyStrip ⟨c⟩)) := by
  unfold candidatesFromPasted
  rw [if_neg hp]
  constructor
  · exact pastedLoop_length (splitDashes p.data) 0
  · intro n
    rw [pastedLoop_get? (splitDashes p.data) 0 n]
    have harith : 0 + n + 1 = n + 1 := by omega
    rw [harith]

/-- Witness for C4 (amended): the example paste, chunk by chunk. -/
theorem paste_split_amended_witness :
    (candidatesFromPasted "Alice info\n---\n\n---\nBob info").length = 3
  ∧ (candidatesFromPasted "Alice info\n---\n\n---\nBob info").get? 2 =
      some ("Pasted_Candidate_3.txt", "Bob info") := by
  constructor
  · exact ((paste_split_amended "Alice info\n---\n\n---\nBob info"
      (by decide)).1).trans (by decide)
  · exact ((paste_split_amended "Alice info\n---\n\n---\nBob info"
      (by decide)).2 2).trans (by decide)

end HrAI
